import Mathlib

/-!
# cq-provider-github: resolvers, error filter and table registration

A shallow embedding of `client/errors.go`, `resources/teams.go` and
`resources/provider/provider.go`.

Conventions of the embedding.

* A Go `error` value is `Option GoError`; `none` is `nil`.
* Go `int` and `int64` are `Int`.  The resolvers do no arithmetic on them; the only
  place a machine range matters is `strconv.Atoi`, which checks it explicitly (64-bit `int`).
* A pointer the source tests against `nil` (`Team.Parent`) is an `Option`.  A pointer the
  source dereferences or passes on without a test (`t.ID`, `t.MembersURL`, `er.Response`,
  `u.Parent.ID`) is embedded as its pointee: the SDK always sets these, and the source
  relies on it.
* Go strings that are taken apart (`MembersURL`) are `List Char`; strings that are only
  compared or stored are `String`.
* The SDK (`c.Github.Teams`) is an oracle.  Its answer may depend on the number of calls
  already made to it in the run and on the arguments of the call.
* `res <- v` appends `v` to the list of pushed values.
* The `for { ... }` loops are unbounded in Go.  They are embedded with a fuel argument that
  bounds the number of iterations; a run that uses up its fuel ends as `Ending.unfinished`
  and still reports the calls and pushes made so far.
-/

namespace GithubProvider

/-! ## Go error values -/

/-- The part of `*http.Response` the code reads. -/
structure HttpResponse where
  StatusCode : Int
  deriving DecidableEq, Repr

/-- The fields of `github.ErrorResponse` the code reads. -/
structure ErrorResponse where
  Response : HttpResponse
  Message : String
  deriving DecidableEq, Repr

/-- The two sentinel errors of `strconv`. -/
inductive ConvErr where
  | ErrSyntax
  | ErrRange
  deriving DecidableEq, Repr

/-- The value `*strconv.NumError`. -/
structure NumError where
  Func : String
  Num : List Char
  Err : ConvErr
  deriving DecidableEq, Repr

/-- A non-nil Go error: the concrete types the code can meet, and wrapping
(`fmt.Errorf("...: %w", err)`), which is what `errors.As` walks through. -/
inductive GoError where
  | errorResponse (er : ErrorResponse)
  | numError (ne : NumError)
  | errorString (msg : String)
  | wrapError (msg : String) (err : GoError)
  deriving DecidableEq, Repr

/-! ## SDK types -/

/-- The value `github.ListOptions`. -/
structure ListOptions where
  Page : Int
  PerPage : Int
  deriving DecidableEq, Repr

/-- The pagination fields of `github.Response`. -/
structure Response where
  NextPage : Int
  LastPage : Int
  deriving DecidableEq, Repr

/-- The triple `(repos, resp, err)` a list method of the SDK returns.  `β` is the type of
the slice `repos`, which the resolvers push as one value. -/
structure Reply (β : Type) where
  repos : β
  resp : Response
  err : Option GoError
  deriving DecidableEq, Repr

/-- How a run of a resolver ends. -/
inductive Ending where
  | returned (err : Option GoError)
  | panicked
  | unfinished
  deriving DecidableEq, Repr

/-- What a run of a resolver did: the SDK calls it made, the values it pushed onto `res`,
both in order, and how it ended. -/
structure Run (κ β : Type) where
  calls : List κ
  pushed : List β
  ending : Ending
  deriving DecidableEq, Repr

/-- The arguments of one call `Teams.ListTeams(ctx, org, opts)`. -/
structure ListTeamsCall where
  org : String
  opts : ListOptions
  deriving DecidableEq, Repr

/-! ## `fetchTeams` (teams.go) -/

/-- The `for` loop of `fetchTeams`.  `i` is the number of calls to `ListTeams` made so
far, `opts` the current value of `*opts`. -/
def fetchTeamsLoop {β : Type} (ListTeams : Nat → String → ListOptions → Reply β)
    (org : String) : Nat → Nat → ListOptions → Run ListTeamsCall β
  | 0, _, _ => ⟨[], [], Ending.unfinished⟩
  | fuel + 1, i, opts =>
    let r := ListTeams i org opts
    match r.err with
    | some e => ⟨[⟨org, opts⟩], [], Ending.returned (some e)⟩
    | none =>
      let opts1 : ListOptions := { opts with Page := r.resp.NextPage }
      if opts1.Page = r.resp.LastPage then
        ⟨[⟨org, opts⟩], [r.repos], Ending.returned none⟩
      else
        let rest := fetchTeamsLoop ListTeams org fuel (i + 1) opts1
        ⟨⟨org, opts⟩ :: rest.calls, r.repos :: rest.pushed, rest.ending⟩

/-- The resolver `fetchTeams`: `opts` starts as `{Page: 0, PerPage: 100}`. -/
def fetchTeams {β : Type} (ListTeams : Nat → String → ListOptions → Reply β)
    (org : String) (fuel : Nat) : Run ListTeamsCall β :=
  fetchTeamsLoop ListTeams org fuel 0 ⟨0, 100⟩

/-! ## SDK behaviours used to state the claims -/

/-- An SDK that answers the `i`-th call with the `i`-th element of a fixed sequence of
responses, whatever the arguments. -/
def scripted {β : Type} (rs : Nat → Reply β) : Nat → String → ListOptions → Reply β :=
  fun i _ _ => rs i

/-- The page a request asks for: `Page = 0` means page 1. -/
def effectivePage (opts : ListOptions) : Int :=
  if opts.Page = 0 then 1 else opts.Page

/-- A listing of `L` pages served with the go-github Link-header convention: a request for
page `p` returns `page p`, with `NextPage = p + 1` and `LastPage = L` when `p < L`, and
with `NextPage = 0` and `LastPage = 0` otherwise. -/
def linkHeaderListing {β : Type} (L : Nat) (page : Nat → β) :
    Nat → String → ListOptions → Reply β :=
  fun _ _ opts =>
    let p := effectivePage opts
    if p < L then ⟨page p.toNat, ⟨p + 1, L⟩, none⟩
    else ⟨page p.toNat, ⟨0, 0⟩, none⟩

/-- The response shape of the upstream API for a listing of `L` pages, as a property of an
arbitrary SDK: no errors, and the Link-header convention on the pages `1..L`. -/
def FollowsLinkConvention {β : Type} (L : Nat)
    (sdk : Nat → String → ListOptions → Reply β) : Prop :=
  ∀ i org opts,
    (sdk i org opts).err = none ∧
    (1 ≤ effectivePage opts → effectivePage opts < L →
      (sdk i org opts).resp.NextPage = effectivePage opts + 1 ∧
      (sdk i org opts).resp.LastPage = L) ∧
    (effectivePage opts = L →
      (sdk i org opts).resp.NextPage = 0 ∧ (sdk i org opts).resp.LastPage = 0)

/-! ## `strings.Split` and `strconv.Atoi` (Go standard library) -/

/-- The call `strings.Split(s, sep)` for a one-byte separator: the pieces of `s` between
the occurrences of `sep`.  A string with `k` occurrences has `k + 1` pieces. -/
def stringsSplit (sep : Char) : List Char → List (List Char)
  | [] => [[]]
  | c :: cs =>
    if c = sep then [] :: stringsSplit sep cs
    else
      match stringsSplit sep cs with
      | seg :: rest => (c :: seg) :: rest
      | [] => [[c]]

/-- The digit loop of `strconv.ParseUint(s, 10, 64)`: `n` is the value read so far.  A byte
that is no digit is a syntax error; a value above `2^64 - 1` is a range error, reported as
soon as it is reached. -/
def parseUintLoop : List Char → Nat → Except ConvErr Nat
  | [], n => Except.ok n
  | c :: cs, n =>
    if c.isDigit then
      if n ≥ (2 ^ 64 - 1) / 10 + 1 then Except.error ConvErr.ErrRange
      else
        let n1 := n * 10 + (c.toNat - 48)
        if n1 > 2 ^ 64 - 1 then Except.error ConvErr.ErrRange
        else parseUintLoop cs n1
    else Except.error ConvErr.ErrSyntax

/-- The call `strconv.ParseUint(s, 10, 64)`. -/
def ParseUint (s : List Char) : Except ConvErr Nat :=
  match s with
  | [] => Except.error ConvErr.ErrSyntax
  | _ :: _ => parseUintLoop s 0

/-- The call `strconv.ParseInt(s, 10, 0)` with a 64-bit `int`: an optional sign, then
`ParseUint`, then the range check against `2^63`. -/
def ParseInt (s : List Char) : Except ConvErr Int :=
  match s with
  | [] => Except.error ConvErr.ErrSyntax
  | c :: cs =>
    let neg : Bool := c = '-'
    let body := if c = '+' ∨ c = '-' then cs else s
    match ParseUint body with
    | Except.error e => Except.error e
    | Except.ok un =>
      if neg = false ∧ un ≥ 2 ^ 63 then Except.error ConvErr.ErrRange
      else if neg = true ∧ un > 2 ^ 63 then Except.error ConvErr.ErrRange
      else Except.ok (if neg then -(un : Int) else (un : Int))

/-- The call `strconv.Atoi(s)`: the result of `ParseInt(s, 10, 0)`, its error a
`*NumError` with `Func = "Atoi"` and the input as `Num`.  (The fast path `Atoi` takes on
short inputs returns the same results.) -/
def Atoi (s : List Char) : Except NumError Int :=
  match ParseInt s with
  | Except.error e => Except.error ⟨"Atoi", s, e⟩
  | Except.ok v => Except.ok v

/-- The number a string of decimal digits stands for, read after the value `n`. -/
def digitsValue : List Char → Nat → Nat
  | [], n => n
  | c :: cs, n => digitsValue cs (n * 10 + (c.toNat - 48))

/-! ## `fetchTeamMembers` (teams.go) -/

/-- The fields of `github.Team` the resolvers read. -/
inductive Team where
  | mk (ID : Int) (MembersURL : List Char) (Parent : Option Team)

/-- The field `ID` of a team. -/
def Team.ID : Team → Int
  | Team.mk id _ _ => id

/-- The field `MembersURL` of a team. -/
def Team.MembersURL : Team → List Char
  | Team.mk _ url _ => url

/-- The field `Parent` of a team. -/
def Team.Parent : Team → Option Team
  | Team.mk _ _ parent => parent

/-- The value `github.TeamListTeamMembersOptions`: a role filter and the embedded
`ListOptions`. -/
structure TeamListTeamMembersOptions where
  Role : String
  toListOptions : ListOptions
  deriving DecidableEq, Repr

/-- The arguments of one call `Teams.ListTeamMembersByID(ctx, orgID, teamID, opts)`. -/
structure ListTeamMembersCall where
  orgID : Int
  teamID : Int
  opts : TeamListTeamMembersOptions
  deriving DecidableEq, Repr

/-- The `for` loop of `fetchTeamMembers`.  `i` is the number of calls to
`ListTeamMembersByID` made so far, `opts` the current value of `*opts`. -/
def fetchTeamMembersLoop {β : Type}
    (ListTeamMembersByID : Nat → Int → Int → TeamListTeamMembersOptions → Reply β)
    (orgId : Int) (t : Team) : Nat → Nat → TeamListTeamMembersOptions →
    Run ListTeamMembersCall β
  | 0, _, _ => ⟨[], [], Ending.unfinished⟩
  | fuel + 1, i, opts =>
    let r := ListTeamMembersByID i orgId t.ID opts
    match r.err with
    | some e => ⟨[⟨orgId, t.ID, opts⟩], [], Ending.returned (some e)⟩
    | none =>
      let opts1 : TeamListTeamMembersOptions :=
        { opts with toListOptions := { opts.toListOptions with Page := r.resp.NextPage } }
      if opts1.toListOptions.Page = r.resp.LastPage then
        ⟨[⟨orgId, t.ID, opts⟩], [r.repos], Ending.returned none⟩
      else
        let rest := fetchTeamMembersLoop ListTeamMembersByID orgId t fuel (i + 1) opts1
        ⟨⟨orgId, t.ID, opts⟩ :: rest.calls, r.repos :: rest.pushed, rest.ending⟩

/-- The resolver `fetchTeamMembers`.  `t` is `parent.Item`.  Indexing the split URL at 4
panics when it has fewer than five pieces; an `Atoi` error is returned before any call. -/
def fetchTeamMembers {β : Type}
    (ListTeamMembersByID : Nat → Int → Int → TeamListTeamMembersOptions → Reply β)
    (t : Team) (fuel : Nat) : Run ListTeamMembersCall β :=
  match (stringsSplit '/' t.MembersURL)[4]? with
  | none => ⟨[], [], Ending.panicked⟩
  | some seg =>
    match Atoi seg with
    | Except.error ne => ⟨[], [], Ending.returned (some (GoError.numError ne))⟩
    | Except.ok orgId =>
      fetchTeamMembersLoop ListTeamMembersByID orgId t fuel 0 ⟨"", ⟨0, 100⟩⟩

/-- An SDK that answers the `i`-th call to `ListTeamMembersByID` with the `i`-th element of
a fixed sequence of responses, whatever the arguments. -/
def scriptedMembers {β : Type} (rs : Nat → Reply β) :
    Nat → Int → Int → TeamListTeamMembersOptions → Reply β :=
  fun i _ _ _ => rs i

/-- The pair `(Page, PerPage)` of each request of a run of `fetchTeams`. -/
def teamsRequests {β : Type} (run : Run ListTeamsCall β) : List (Int × Int) :=
  run.calls.map (fun c => (c.opts.Page, c.opts.PerPage))

/-- The pair `(Page, PerPage)` of each request of a run of `fetchTeamMembers`. -/
def membersRequests {β : Type} (run : Run ListTeamMembersCall β) : List (Int × Int) :=
  run.calls.map (fun c => (c.opts.toListOptions.Page, c.opts.toListOptions.PerPage))

/-- The URL `https://api.github.com/organizations/<n>/team/<m>/members{/member}`, with `n`
and `m` in decimal. -/
def membersURL (n m : Nat) : List Char :=
  "https://api.github.com/organizations/".toList ++ (Nat.toDigits 10 n ++ ("/team/".toList
    ++ (Nat.toDigits 10 m ++ "/members\x7b/member\x7d".toList)))

/-- A decimal integer, as a string: an optional sign followed by one or more decimal
digits. -/
def isDecimalInteger (s : List Char) : Bool :=
  match s with
  | [] => false
  | c :: cs =>
    if c = '+' ∨ c = '-' then !cs.isEmpty && cs.all Char.isDigit
    else s.all Char.isDigit

/-! ## `IgnoreError` (client/errors.go) -/

/-- The constant `EnterpriseOnly`. -/
def EnterpriseOnly : String :=
  "This organization is not part of externally managed enterprise."

/-- The constant `http.StatusNotFound`. -/
def StatusNotFound : Int := 404

/-- The call `errors.As(err, &er)` for `er` of type `*github.ErrorResponse`: the first
error of that type on the chain of `err`, found by unwrapping; `none` when `As` returns
false.  An `ErrorResponse` and the leaf errors have no `Unwrap` method. -/
def errorsAs : GoError → Option ErrorResponse
  | GoError.errorResponse er => some er
  | GoError.numError _ => none
  | GoError.errorString _ => none
  | GoError.wrapError _ err => errorsAs err

/-- The function `IgnoreError`. -/
def IgnoreError (err : Option GoError) : Bool :=
  match err.bind errorsAs with
  | some er =>
    if er.Response.StatusCode = StatusNotFound then true
    else if er.Message = EnterpriseOnly then true
    else false
  | none => false

/-! ## Schema declarations (provider SDK) and `Teams()` (teams.go) -/

/-- The column types of the SDK that `Teams()` uses. -/
inductive ValueType where
  | TypeString
  | TypeBigInt
  | TypeJSON
  | TypeUUID
  | TypeBool
  | TypeTimestamp
  deriving DecidableEq, Repr

/-- The column resolvers `Teams()` refers to; `unset` is a column without a `Resolver`. -/
inductive ColumnResolver where
  | unset
  | PathResolver (path : String)
  | ParentIdResolver
  | ParentResourceFieldResolver (name : String)
  | ResolveOrg
  | resolveTeamsParent
  | resolveTeamMembersTextMatches
  deriving DecidableEq, Repr

/-- The table resolvers `Teams()` refers to. -/
inductive TableResolver where
  | fetchTeams
  | fetchTeamMembers
  deriving DecidableEq, Repr

/-- The value `schema.Column`. -/
structure Column where
  Name : String
  Description : String
  Type_ : ValueType
  Resolver : ColumnResolver
  deriving DecidableEq, Repr

/-- The fields of `schema.Table` that `Teams()` sets.  `Multiplex` records whether
`client.OrgMultiplex` is set; `PrimaryKeys` is `Options.PrimaryKeys`. -/
inductive Table where
  | mk (Name Description : String) (Resolver : TableResolver) (Multiplex : Bool)
      (PrimaryKeys : List String) (Columns : List Column) (Relations : List Table)

/-- The field `Name` of a table. -/
def Table.Name : Table → String
  | Table.mk name _ _ _ _ _ _ => name

/-- The field `Options.PrimaryKeys` of a table. -/
def Table.PrimaryKeys : Table → List String
  | Table.mk _ _ _ _ pks _ _ => pks

/-- The field `Columns` of a table. -/
def Table.Columns : Table → List Column
  | Table.mk _ _ _ _ _ cols _ => cols

/-- The field `Relations` of a table. -/
def Table.Relations : Table → List Table
  | Table.mk _ _ _ _ _ _ rels => rels

/-- The names of the columns of a table, in order. -/
def Table.columnNames (t : Table) : List String :=
  t.Columns.map Column.Name

/-- The columns of `github_teams`. -/
def teamsColumns : List Column := [
    ⟨"org", "The Github Organization of the resource.", ValueType.TypeString, ColumnResolver.ResolveOrg⟩,
    ⟨"id", "", ValueType.TypeBigInt, ColumnResolver.PathResolver "ID"⟩,
    ⟨"node_id", "", ValueType.TypeString, ColumnResolver.PathResolver "NodeID"⟩,
    ⟨"name", "", ValueType.TypeString, ColumnResolver.unset⟩,
    ⟨"description", "", ValueType.TypeString, ColumnResolver.unset⟩,
    ⟨"url", "", ValueType.TypeString, ColumnResolver.PathResolver "URL"⟩,
    ⟨"slug", "", ValueType.TypeString, ColumnResolver.unset⟩,
    ⟨"permission", "Permission specifies the default permission for repositories owned by the team.", ValueType.TypeString, ColumnResolver.unset⟩,
    ⟨"permissions", "Permissions identifies the permissions that a team has on a given repository", ValueType.TypeJSON, ColumnResolver.unset⟩,
    ⟨"privacy", "Privacy identifies the level of privacy this team should have. Possible values are:     secret - only visible to organization owners and members of this team     closed - visible to all members of this organization Default is \"secret\".", ValueType.TypeString, ColumnResolver.unset⟩,
    ⟨"members_count", "", ValueType.TypeBigInt, ColumnResolver.unset⟩,
    ⟨"repos_count", "", ValueType.TypeBigInt, ColumnResolver.unset⟩,
    ⟨"html_url", "", ValueType.TypeString, ColumnResolver.PathResolver "HTMLURL"⟩,
    ⟨"members_url", "", ValueType.TypeString, ColumnResolver.PathResolver "MembersURL"⟩,
    ⟨"repositories_url", "", ValueType.TypeString, ColumnResolver.PathResolver "RepositoriesURL"⟩,
    ⟨"parent", "", ValueType.TypeBigInt, ColumnResolver.resolveTeamsParent⟩,
    ⟨"ldapdn", "LDAPDN is only available in GitHub Enterprise and when the team membership is synchronized with LDAP.", ValueType.TypeString, ColumnResolver.PathResolver "LDAPDN"⟩
  ]

/-- The columns of `github_team_members`. -/
def teamMembersColumns : List Column := [
    ⟨"team_cq_id", "Unique CloudQuery ID of github_teams table (FK)", ValueType.TypeUUID, ColumnResolver.ParentIdResolver⟩,
    ⟨"team_id", "The id of the name", ValueType.TypeBigInt, ColumnResolver.ParentResourceFieldResolver "id"⟩,
    ⟨"org", "The Github Organization of the resource.", ValueType.TypeString, ColumnResolver.ResolveOrg⟩,
    ⟨"login", "", ValueType.TypeString, ColumnResolver.unset⟩,
    ⟨"id", "", ValueType.TypeBigInt, ColumnResolver.PathResolver "ID"⟩,
    ⟨"node_id", "", ValueType.TypeString, ColumnResolver.PathResolver "NodeID"⟩,
    ⟨"avatar_url", "", ValueType.TypeString, ColumnResolver.PathResolver "AvatarURL"⟩,
    ⟨"html_url", "", ValueType.TypeString, ColumnResolver.PathResolver "HTMLURL"⟩,
    ⟨"gravatar_id", "", ValueType.TypeString, ColumnResolver.PathResolver "GravatarID"⟩,
    ⟨"name", "", ValueType.TypeString, ColumnResolver.unset⟩,
    ⟨"company", "", ValueType.TypeString, ColumnResolver.unset⟩,
    ⟨"blog", "", ValueType.TypeString, ColumnResolver.unset⟩,
    ⟨"location", "", ValueType.TypeString, ColumnResolver.unset⟩,
    ⟨"email", "", ValueType.TypeString, ColumnResolver.unset⟩,
    ⟨"hireable", "", ValueType.TypeBool, ColumnResolver.unset⟩,
    ⟨"bio", "", ValueType.TypeString, ColumnResolver.unset⟩,
    ⟨"twitter_username", "", ValueType.TypeString, ColumnResolver.unset⟩,
    ⟨"public_repos", "", ValueType.TypeBigInt, ColumnResolver.unset⟩,
    ⟨"public_gists", "", ValueType.TypeBigInt, ColumnResolver.unset⟩,
    ⟨"followers", "", ValueType.TypeBigInt, ColumnResolver.unset⟩,
    ⟨"following", "", ValueType.TypeBigInt, ColumnResolver.unset⟩,
    ⟨"created_at_time", "", ValueType.TypeTimestamp, ColumnResolver.PathResolver "CreatedAt.Time"⟩,
    ⟨"updated_at_time", "", ValueType.TypeTimestamp, ColumnResolver.PathResolver "UpdatedAt.Time"⟩,
    ⟨"suspended_at_time", "", ValueType.TypeTimestamp, ColumnResolver.PathResolver "SuspendedAt.Time"⟩,
    ⟨"type", "", ValueType.TypeString, ColumnResolver.unset⟩,
    ⟨"site_admin", "", ValueType.TypeBool, ColumnResolver.unset⟩,
    ⟨"total_private_repos", "", ValueType.TypeBigInt, ColumnResolver.unset⟩,
    ⟨"owned_private_repos", "", ValueType.TypeBigInt, ColumnResolver.unset⟩,
    ⟨"private_gists", "", ValueType.TypeBigInt, ColumnResolver.unset⟩,
    ⟨"disk_usage", "", ValueType.TypeBigInt, ColumnResolver.unset⟩,
    ⟨"collaborators", "", ValueType.TypeBigInt, ColumnResolver.unset⟩,
    ⟨"two_factor_authentication", "", ValueType.TypeBool, ColumnResolver.unset⟩,
    ⟨"plan_name", "", ValueType.TypeString, ColumnResolver.PathResolver "Plan.Name"⟩,
    ⟨"plan_space", "", ValueType.TypeBigInt, ColumnResolver.PathResolver "Plan.Space"⟩,
    ⟨"plan_collaborators", "", ValueType.TypeBigInt, ColumnResolver.PathResolver "Plan.Collaborators"⟩,
    ⟨"plan_private_repos", "", ValueType.TypeBigInt, ColumnResolver.PathResolver "Plan.PrivateRepos"⟩,
    ⟨"plan_filled_seats", "", ValueType.TypeBigInt, ColumnResolver.PathResolver "Plan.FilledSeats"⟩,
    ⟨"plan_seats", "", ValueType.TypeBigInt, ColumnResolver.PathResolver "Plan.Seats"⟩,
    ⟨"ldap_dn", "", ValueType.TypeString, ColumnResolver.unset⟩,
    ⟨"url", "API URLs", ValueType.TypeString, ColumnResolver.PathResolver "URL"⟩,
    ⟨"events_url", "", ValueType.TypeString, ColumnResolver.PathResolver "EventsURL"⟩,
    ⟨"following_url", "", ValueType.TypeString, ColumnResolver.PathResolver "FollowingURL"⟩,
    ⟨"followers_url", "", ValueType.TypeString, ColumnResolver.PathResolver "FollowersURL"⟩,
    ⟨"gists_url", "", ValueType.TypeString, ColumnResolver.PathResolver "GistsURL"⟩,
    ⟨"organizations_url", "", ValueType.TypeString, ColumnResolver.PathResolver "OrganizationsURL"⟩,
    ⟨"received_events_url", "", ValueType.TypeString, ColumnResolver.PathResolver "ReceivedEventsURL"⟩,
    ⟨"repos_url", "", ValueType.TypeString, ColumnResolver.PathResolver "ReposURL"⟩,
    ⟨"starred_url", "", ValueType.TypeString, ColumnResolver.PathResolver "StarredURL"⟩,
    ⟨"subscriptions_url", "", ValueType.TypeString, ColumnResolver.PathResolver "SubscriptionsURL"⟩,
    ⟨"text_matches", "TextMatches is only populated from search results that request text matches See: search.go and https://docs.github.com/en/rest/search/#text-match-metadata", ValueType.TypeJSON, ColumnResolver.resolveTeamMembersTextMatches⟩,
    ⟨"permissions", "Permissions and RoleName identify the permissions and role that a user has on a given repository", ValueType.TypeJSON, ColumnResolver.unset⟩,
    ⟨"role_name", "", ValueType.TypeString, ColumnResolver.unset⟩
  ]

/-- The relation `github_team_members` of `Teams()`. -/
def teamMembersTable : Table :=
  Table.mk "github_team_members" "User represents a GitHub user."
    TableResolver.fetchTeamMembers false ["team_id", "id"] teamMembersColumns []

/-- The function `Teams()`. -/
def Teams : Table :=
  Table.mk "github_teams" "Team represents a team within a GitHub organization"
    TableResolver.fetchTeams true ["id"] teamsColumns [teamMembersTable]

/-! ## `resolveTeamsParent` (teams.go) -/

/-- A value stored in a column of a resource. -/
inductive Value where
  | bigint (v : Int)
  | text (s : String)
  deriving DecidableEq, Repr

/-- The part of `schema.Resource` the resolver touches: the item and the column data. -/
structure Resource where
  Item : Team
  data : String → Option Value

/-- The column resolver `resolveTeamsParent`.  `Set` is the SDK method `resource.Set`; it
returns the resource after the call and the error of the call. -/
def resolveTeamsParent (Set : Resource → String → Value → Resource × Option GoError)
    (resource : Resource) (c : Column) : Resource × Option GoError :=
  let u := resource.Item
  match u.Parent with
  | none => (resource, none)
  | some parent => Set resource c.Name (Value.bigint parent.ID)

/-- A `Set` that stores the value under the key and returns `nil`. -/
def storeSet (r : Resource) (key : String) (v : Value) : Resource × Option GoError :=
  ({ r with data := fun k => if k = key then some v else r.data k }, none)

/-- A `Set` writes no column other than the one it is given. -/
def WritesOnlyKey (Set : Resource → String → Value → Resource × Option GoError) : Prop :=
  ∀ r key v k, k ≠ key → (Set r key v).1.data k = r.data k

/-! ## `Provider()` (resources/provider/provider.go) -/

/-- The table constructors of package `resources` that the sources name: the four that
`Provider()` registers, and the two billing tables (`action_billing_test.go`,
`storage_billing_test.go`). -/
inductive TableFn where
  | Organizations
  | Repositories
  | Teams
  | ExternalGroups
  | ActionBillings
  | StorageBillings
  deriving DecidableEq, Repr

/-- The tables that serve billing metrics. -/
def TableFn.isBilling : TableFn → Bool
  | TableFn.ActionBillings => true
  | TableFn.StorageBillings => true
  | _ => false

/-- The fields `Version`, `Name` and `ResourceMap` of the value `Provider()` returns. -/
structure ProviderDecl where
  Version : String
  Name : String
  ResourceMap : List (String × TableFn)
  deriving DecidableEq, Repr

/-- The function `provider.Provider()`. -/
def Provider : ProviderDecl :=
  { Version := "Development"
    Name := "github"
    ResourceMap := [
      ("organizations", TableFn.Organizations),
      ("repositories", TableFn.Repositories),
      ("teams", TableFn.Teams),
      ("external_groups", TableFn.ExternalGroups)] }

/-- The entry of the resource map under a key. -/
def ProviderDecl.resource (p : ProviderDecl) (key : String) : Option TableFn :=
  (p.ResourceMap.find? (fun e => e.1 = key)).map Prod.snd

/-! ## Theorems: the pagination loop of `fetchTeams` -/

/-- A request with `Page ≥ 1` asks for that page. -/
theorem effectivePage_of_pos (opts : ListOptions) (h : 1 ≤ opts.Page) :
    effectivePage opts = opts.Page := by
  unfold effectivePage
  rw [if_neg]
  omega

/-- On a listing of `L` pages, the loop entered at page `q` with `1 ≤ q < L` pushes the pages
`q, ..., L - 1`, makes `L - q` calls and returns `nil`: it stops when `NextPage` reaches
`LastPage`, before page `L` is requested. -/
theorem fetchTeamsLoop_linkHeaderListing {β : Type} (L : Nat) (page : Nat → β) (org : String)
    (fuel : Nat) : ∀ (q i : Nat) (opts : ListOptions), 1 ≤ q → q < L → L - q ≤ fuel →
      effectivePage opts = (q : Int) →
      (fetchTeamsLoop (linkHeaderListing L page) org fuel i opts).pushed
          = (List.range' q (L - q)).map page ∧
      (fetchTeamsLoop (linkHeaderListing L page) org fuel i opts).ending
          = Ending.returned none ∧
      (fetchTeamsLoop (linkHeaderListing L page) org fuel i opts).calls.length = L - q := by
  induction fuel with
  | zero => intro q i opts _ h2 h3 _; omega
  | succ fuel ih =>
    intro q i opts h1 h2 h3 h4
    have hr : linkHeaderListing L page i org opts = ⟨page q, ⟨(q : Int) + 1, L⟩, none⟩ := by
      simp only [linkHeaderListing, h4]
      rw [if_pos (by exact_mod_cast h2)]
      simp
    by_cases hq : q + 1 = L
    · have hq1 : ((q : Int) + 1 = (L : Int)) := by exact_mod_cast hq
      have hd : L - q = 1 := by omega
      simp [fetchTeamsLoop, hr, hq1, hd]
    · have hq1 : ¬ ((q : Int) + 1 = (L : Int)) := by exact_mod_cast hq
      have hep : effectivePage ⟨(q : Int) + 1, opts.PerPage⟩ = ((q + 1 : Nat) : Int) := by
        rw [effectivePage_of_pos]
        · push_cast; rfl
        · show (1 : Int) ≤ (q : Int) + 1
          omega
      obtain ⟨ihp, ihe, ihc⟩ :=
        ih (q + 1) (i + 1) ⟨(q : Int) + 1, opts.PerPage⟩ (by omega) (by omega) (by omega) hep
      have hd : L - q = (L - (q + 1)) + 1 := by omega
      simp only [fetchTeamsLoop, hr, hq1, if_false]
      refine ⟨?_, ihe, ?_⟩
      · rw [ihp, hd, List.range'_succ]
        simp
      · rw [List.length_cons, ihc]
        omega

/-- Against any SDK that follows the Link-header convention for `L ≥ 2` pages, the loop
entered at page `q` with `1 ≤ q < L` returns `nil` after `L - q` calls. -/
theorem fetchTeamsLoop_convention {β : Type} (L : Nat)
    (sdk : Nat → String → ListOptions → Reply β) (hsdk : FollowsLinkConvention L sdk)
    (org : String) (fuel : Nat) : ∀ (q i : Nat) (opts : ListOptions), 1 ≤ q → q < L →
      L - q ≤ fuel → effectivePage opts = (q : Int) →
      (fetchTeamsLoop sdk org fuel i opts).ending = Ending.returned none ∧
      (fetchTeamsLoop sdk org fuel i opts).calls.length = L - q := by
  induction fuel with
  | zero => intro q i opts _ h2 h3 _; omega
  | succ fuel ih =>
    intro q i opts h1 h2 h3 h4
    obtain ⟨herr, hlt, _⟩ := hsdk i org opts
    obtain ⟨hnext, hlast⟩ := hlt (by rw [h4]; exact_mod_cast h1) (by rw [h4]; exact_mod_cast h2)
    rw [h4] at hnext
    by_cases hq : q + 1 = L
    · have hq1 : ((q : Int) + 1 = (L : Int)) := by exact_mod_cast hq
      have hd : L - q = 1 := by omega
      simp [fetchTeamsLoop, herr, hnext, hlast, hq1, hd]
    · have hq1 : ¬ ((q : Int) + 1 = (L : Int)) := by exact_mod_cast hq
      have hep : effectivePage ⟨(q : Int) + 1, opts.PerPage⟩ = ((q + 1 : Nat) : Int) := by
        rw [effectivePage_of_pos]
        · push_cast; rfl
        · show (1 : Int) ≤ (q : Int) + 1
          omega
      obtain ⟨ihe, ihc⟩ :=
        ih (q + 1) (i + 1) ⟨(q : Int) + 1, opts.PerPage⟩ (by omega) (by omega) (by omega) hep
      simp only [fetchTeamsLoop, herr, hnext, hlast, hq1, if_false]
      refine ⟨ihe, ?_⟩
      rw [List.length_cons, ihc]
      omega

/-- The listing `linkHeaderListing L page` has the response shape of the upstream API. -/
theorem linkHeaderListing_follows {β : Type} (L : Nat) (page : Nat → β) :
    FollowsLinkConvention L (linkHeaderListing L page) := by
  intro i org opts
  refine ⟨?_, ?_, ?_⟩
  · simp only [linkHeaderListing]
    split <;> rfl
  · intro _ h
    simp only [linkHeaderListing]
    rw [if_pos h]
    exact ⟨rfl, rfl⟩
  · intro h
    simp only [linkHeaderListing]
    rw [if_neg (by omega)]
    exact ⟨rfl, rfl⟩

/-- C1: on a listing of `L ≥ 2` pages served with the Link-header convention, `fetchTeams`
returns `nil` after pushing the batches of the pages `1, ..., L - 1` only: the batch of
page `L` is never pushed, so what is pushed is not the batches of the pages `1, ..., L`. -/
theorem fetchTeams_skips_last_page {β : Type} (L : Nat) (page : Nat → β) (org : String)
    (fuel : Nat) (hL : 2 ≤ L) (hf : L ≤ fuel) :
    (fetchTeams (linkHeaderListing L page) org fuel).pushed
        = (List.range' 1 (L - 1)).map page ∧
    (fetchTeams (linkHeaderListing L page) org fuel).ending = Ending.returned none ∧
    (fetchTeams (linkHeaderListing L page) org fuel).calls.length = L - 1 ∧
    (fetchTeams (linkHeaderListing L page) org fuel).pushed ≠ (List.range' 1 L).map page := by
  obtain ⟨hp, he, hc⟩ := fetchTeamsLoop_linkHeaderListing L page org fuel 1 0 ⟨0, 100⟩
    (le_refl 1) (by omega) (by omega) rfl
  refine ⟨hp, he, hc, ?_⟩
  intro h
  have hlen := congrArg List.length h
  unfold fetchTeams at hlen
  rw [hp] at hlen
  simp at hlen
  omega

/-- The listing of 2 pages: one call, page 1 pushed, page 2 never requested. -/
theorem fetchTeams_skips_last_page_witness :
    (fetchTeams (linkHeaderListing 2 (fun p => [p])) "org" 2).pushed = [[1]] ∧
    (fetchTeams (linkHeaderListing 2 (fun p => [p])) "org" 2).ending
      = Ending.returned none ∧
    (fetchTeams (linkHeaderListing 2 (fun p => [p])) "org" 2).calls.length = 1 ∧
    (fetchTeams (linkHeaderListing 2 (fun p => [p])) "org" 2).pushed ≠ [[1], [2]] :=
  fetchTeams_skips_last_page 2 (fun p => [p]) "org" 2 (by decide) (by decide)

/-- C6: for every `L ≥ 1`, against an SDK that follows the Link-header convention for a
listing of `L` pages, `fetchTeams` returns (with `nil`) after at most `L` calls to
`Teams.ListTeams`; `L` iterations of the loop are enough. -/
theorem fetchTeams_returns_within_L_calls {β : Type} (L : Nat)
    (sdk : Nat → String → ListOptions → Reply β) (org : String) (fuel : Nat)
    (hL : 1 ≤ L) (hsdk : FollowsLinkConvention L sdk) (hf : L ≤ fuel) :
    (fetchTeams sdk org fuel).ending = Ending.returned none ∧
    (fetchTeams sdk org fuel).calls.length ≤ L := by
  by_cases h1 : L = 1
  · subst h1
    obtain ⟨fuel, rfl⟩ : ∃ f, fuel = f + 1 := ⟨fuel - 1, by omega⟩
    obtain ⟨herr, _, hlast⟩ := hsdk 0 org ⟨0, 100⟩
    obtain ⟨hn, hl⟩ := hlast rfl
    simp [fetchTeams, fetchTeamsLoop, herr, hn, hl]
  · obtain ⟨he, hc⟩ := fetchTeamsLoop_convention L sdk hsdk org fuel 1 0 ⟨0, 100⟩
      (le_refl 1) (by omega) (by omega) rfl
    refine ⟨he, ?_⟩
    unfold fetchTeams
    omega

/-- The listing of 3 pages: the run returns `nil` within 3 calls. -/
theorem fetchTeams_returns_within_L_calls_witness :
    (fetchTeams (linkHeaderListing 3 (fun p => [p])) "org" 3).ending
      = Ending.returned none ∧
    (fetchTeams (linkHeaderListing 3 (fun p => [p])) "org" 3).calls.length ≤ 3 :=
  fetchTeams_returns_within_L_calls 3 (linkHeaderListing 3 (fun p => [p])) "org" 3
    (by decide) (linkHeaderListing_follows 3 _) (by decide)

/-- C2: when the first response has no error and its `NextPage` equals its `LastPage`,
`fetchTeams` issues no further request, whatever the value of `NextPage`: the loop stops on
`NextPage = LastPage`, not on `NextPage = 0`. -/
theorem fetchTeams_stops_when_NextPage_eq_LastPage {β : Type} (rs : Nat → Reply β)
    (org : String) (fuel : Nat) (herr : (rs 0).err = none)
    (heq : (rs 0).resp.NextPage = (rs 0).resp.LastPage) :
    fetchTeams (scripted rs) org (fuel + 1)
      = ⟨[⟨org, ⟨0, 100⟩⟩], [(rs 0).repos], Ending.returned none⟩ := by
  simp [fetchTeams, fetchTeamsLoop, scripted, herr, heq]

/-- A first response with `NextPage = 2 = LastPage`: `NextPage` is non-zero and no second
request is issued. -/
theorem fetchTeams_stops_when_NextPage_eq_LastPage_witness :
    ((⟨[7], ⟨2, 2⟩, none⟩ : Reply (List Nat)).resp.NextPage ≠ 0) ∧
    fetchTeams (scripted (fun _ => (⟨[7], ⟨2, 2⟩, none⟩ : Reply (List Nat)))) "org" 5
      = ⟨[⟨"org", ⟨0, 100⟩⟩], [[7]], Ending.returned none⟩ :=
  ⟨by decide, fetchTeams_stops_when_NextPage_eq_LastPage
    (fun _ => (⟨[7], ⟨2, 2⟩, none⟩ : Reply (List Nat))) "org" 4 rfl rfl⟩

/-- With a zero `NextPage` and a non-zero `LastPage` the loop goes on: it requests page 0
again. -/
theorem fetchTeams_continues_on_zero_NextPage :
    (fetchTeams (scripted (fun i =>
        if i = 0 then (⟨[7], ⟨0, 3⟩, none⟩ : Reply (List Nat)) else ⟨[8], ⟨0, 0⟩, none⟩))
      "org" 5).calls = [⟨"org", ⟨0, 100⟩⟩, ⟨"org", ⟨0, 100⟩⟩] := by
  decide

/-- The requests of the loop all carry the `org` and the `PerPage` it was entered with. -/
theorem fetchTeamsLoop_calls {β : Type} (sdk : Nat → String → ListOptions → Reply β)
    (org : String) (fuel : Nat) : ∀ (i : Nat) (opts : ListOptions),
      ∀ c ∈ (fetchTeamsLoop sdk org fuel i opts).calls,
        c.org = org ∧ c.opts.PerPage = opts.PerPage := by
  induction fuel with
  | zero => intro i opts c hc; simp [fetchTeamsLoop] at hc
  | succ fuel ih =>
    intro i opts c hc
    simp only [fetchTeamsLoop] at hc
    split at hc
    · simp at hc; subst hc; exact ⟨rfl, rfl⟩
    · split at hc
      · simp at hc; subst hc; exact ⟨rfl, rfl⟩
      · simp only [List.mem_cons] at hc
        rcases hc with hc | hc
        · subst hc; exact ⟨rfl, rfl⟩
        · have h := ih _ _ c hc
          exact h

/-- The first request of `fetchTeams` has `Page = 0`, and every request has
`PerPage = 100`. -/
theorem fetchTeams_requests {β : Type} (sdk : Nat → String → ListOptions → Reply β)
    (org : String) (fuel : Nat) :
    (fetchTeams sdk org (fuel + 1)).calls.head? = some ⟨org, ⟨0, 100⟩⟩ ∧
    ∀ c ∈ (fetchTeams sdk org fuel).calls, c.opts.PerPage = 100 := by
  refine ⟨?_, fun c hc => (fetchTeamsLoop_calls sdk org fuel 0 ⟨0, 100⟩ c hc).2⟩
  simp only [fetchTeams, fetchTeamsLoop]
  split
  · rfl
  · split <;> rfl

/-- The loop, entered with fuel left, first requests the page it was entered with. -/
theorem fetchTeamsLoop_first_call {β : Type} (sdk : Nat → String → ListOptions → Reply β)
    (org : String) (fuel i : Nat) (opts : ListOptions) :
    (fetchTeamsLoop sdk org (fuel + 1) i opts).calls[0]? = some ⟨org, opts⟩ := by
  simp only [fetchTeamsLoop]
  split
  · rfl
  · split <;> simp

/-- When the loop makes a request after its `j`-th one, the `j`-th response had no error
and a `NextPage` different from its `LastPage`, and the new request asks for that
`NextPage`. -/
theorem fetchTeamsLoop_next_request {β : Type} (rs : Nat → Reply β) (org : String)
    (fuel : Nat) : ∀ (i : Nat) (opts : ListOptions) (j : Nat),
      j + 1 < (fetchTeamsLoop (scripted rs) org fuel i opts).calls.length →
      (rs (i + j)).err = none ∧
      (rs (i + j)).resp.NextPage ≠ (rs (i + j)).resp.LastPage ∧
      (fetchTeamsLoop (scripted rs) org fuel i opts).calls[j + 1]?
        = some ⟨org, ⟨(rs (i + j)).resp.NextPage, opts.PerPage⟩⟩ := by
  induction fuel with
  | zero => intro i opts j h; simp [fetchTeamsLoop] at h
  | succ fuel ih =>
    intro i opts j h
    cases herr : (rs i).err with
    | some e => simp [fetchTeamsLoop, scripted, herr] at h
    | none =>
      by_cases hb : (rs i).resp.NextPage = (rs i).resp.LastPage
      · simp [fetchTeamsLoop, scripted, herr, hb] at h
      · simp only [fetchTeamsLoop, scripted, herr, hb, if_false, List.length_cons] at h ⊢
        cases j with
        | zero =>
          refine ⟨by simpa using herr, by simpa using hb, ?_⟩
          obtain ⟨f, rfl⟩ : ∃ f, fuel = f + 1 := by
            cases fuel with
            | zero => simp [fetchTeamsLoop] at h
            | succ f => exact ⟨f, rfl⟩
          simp only [List.getElem?_cons_succ, Nat.add_zero]
          exact fetchTeamsLoop_first_call _ org f (i + 1) _
        | succ j =>
          have h1 : j + 1 < (fetchTeamsLoop (scripted rs) org fuel (i + 1)
              ⟨(rs i).resp.NextPage, opts.PerPage⟩).calls.length := by
            omega
          obtain ⟨a, b, c⟩ := ih (i + 1) ⟨(rs i).resp.NextPage, opts.PerPage⟩ j h1
          have hij : i + 1 + j = i + (j + 1) := by omega
          rw [hij] at a b c
          refine ⟨a, b, ?_⟩
          simp only [List.getElem?_cons_succ]
          exact c

/-- After a `j`-th response without error whose `NextPage` differs from its `LastPage`, the
loop makes a further request (as long as it has fuel). -/
theorem fetchTeamsLoop_goes_on {β : Type} (rs : Nat → Reply β) (org : String)
    (fuel : Nat) : ∀ (i : Nat) (opts : ListOptions) (j : Nat),
      j < (fetchTeamsLoop (scripted rs) org fuel i opts).calls.length →
      (rs (i + j)).err = none →
      (rs (i + j)).resp.NextPage ≠ (rs (i + j)).resp.LastPage → j + 1 < fuel →
      j + 1 < (fetchTeamsLoop (scripted rs) org fuel i opts).calls.length := by
  induction fuel with
  | zero => intro i opts j h; simp [fetchTeamsLoop] at h
  | succ fuel ih =>
    intro i opts j h herr hb hf
    cases j with
    | zero =>
      have herr0 : (rs i).err = none := by simpa using herr
      have hb0 : ¬ (rs i).resp.NextPage = (rs i).resp.LastPage := by simpa using hb
      obtain ⟨f, rfl⟩ : ∃ f, fuel = f + 1 := ⟨fuel - 1, by omega⟩
      have hfirst := fetchTeamsLoop_first_call (scripted rs) org f (i + 1)
        ⟨(rs i).resp.NextPage, opts.PerPage⟩
      have hlen : 0 < (fetchTeamsLoop (scripted rs) org (f + 1) (i + 1)
          ⟨(rs i).resp.NextPage, opts.PerPage⟩).calls.length := by
        by_contra hc
        have hnil : (fetchTeamsLoop (scripted rs) org (f + 1) (i + 1)
            ⟨(rs i).resp.NextPage, opts.PerPage⟩).calls = [] :=
          List.length_eq_zero.mp (by omega)
        rw [hnil] at hfirst
        simp at hfirst
      rw [fetchTeamsLoop]
      simp only [scripted, herr0, hb0, if_false, List.length_cons] at hlen ⊢
      omega
    | succ j =>
      cases herr0 : (rs i).err with
      | some e => simp [fetchTeamsLoop, scripted, herr0] at h
      | none =>
        by_cases hb0 : (rs i).resp.NextPage = (rs i).resp.LastPage
        · simp [fetchTeamsLoop, scripted, herr0, hb0] at h
        · simp only [fetchTeamsLoop, scripted, herr0, hb0, if_false, List.length_cons] at h ⊢
          have hij : i + 1 + j = i + (j + 1) := by omega
          have := ih (i + 1) ⟨(rs i).resp.NextPage, opts.PerPage⟩ j
            (by omega) (by rw [hij]; exact herr)
            (by rw [hij]; exact hb) (by omega)
          omega

/-- What the loop of `fetchTeams` does for every sequence of SDK responses: after its
`j`-th call (counted from 0) it issues a further request if and only if the `j`-th response
had no error and its `NextPage` differs from its `LastPage`; the further request then asks
for that `NextPage`. -/
theorem fetchTeams_further_request_iff {β : Type} (rs : Nat → Reply β) (org : String)
    (fuel j : Nat) (hj : j < (fetchTeams (scripted rs) org fuel).calls.length)
    (hf : j + 1 < fuel) :
    (j + 1 < (fetchTeams (scripted rs) org fuel).calls.length ↔
      (rs j).err = none ∧ (rs j).resp.NextPage ≠ (rs j).resp.LastPage) ∧
    (j + 1 < (fetchTeams (scripted rs) org fuel).calls.length →
      (fetchTeams (scripted rs) org fuel).calls[j + 1]?
        = some ⟨org, ⟨(rs j).resp.NextPage, 100⟩⟩) := by
  constructor
  · constructor
    · intro h
      have := fetchTeamsLoop_next_request rs org fuel 0 ⟨0, 100⟩ j h
      rw [Nat.zero_add] at this
      exact ⟨this.1, this.2.1⟩
    · rintro ⟨h1, h2⟩
      exact fetchTeamsLoop_goes_on rs org fuel 0 ⟨0, 100⟩ j hj (by simpa using h1)
        (by simpa using h2) hf
  · intro h
    have := (fetchTeamsLoop_next_request rs org fuel 0 ⟨0, 100⟩ j h).2.2
    simpa [fetchTeams] using this

/-! ## Theorems: errors of the SDK -/

/-- The loop against a scripted SDK, when the call number `k` (counted from 0 at the entry
of the loop) is made and is the first to return an error. -/
theorem fetchTeamsLoop_first_error {β : Type} (rs : Nat → Reply β) (org : String)
    (e : GoError) (fuel : Nat) : ∀ (k i : Nat) (opts : ListOptions),
      (rs (i + k)).err = some e → (∀ j, j < k → (rs (i + j)).err = none) →
      k + 1 ≤ (fetchTeamsLoop (scripted rs) org fuel i opts).calls.length →
      (fetchTeamsLoop (scripted rs) org fuel i opts).calls.length = k + 1 ∧
      (fetchTeamsLoop (scripted rs) org fuel i opts).ending = Ending.returned (some e) ∧
      (fetchTeamsLoop (scripted rs) org fuel i opts).pushed
        = (List.range k).map (fun j => (rs (i + j)).repos) := by
  induction fuel with
  | zero => intro k i opts _ _ h; simp [fetchTeamsLoop] at h
  | succ fuel ih =>
    intro k i opts hk hlt hmade
    cases k with
    | zero =>
      have hk0 : (rs i).err = some e := by simpa using hk
      simp [fetchTeamsLoop, scripted, hk0]
    | succ k =>
      have h0 : (rs i).err = none := by simpa using hlt 0 (by omega)
      by_cases hb : (rs i).resp.NextPage = (rs i).resp.LastPage
      · simp [fetchTeamsLoop, scripted, h0, hb] at hmade
      · simp only [fetchTeamsLoop, scripted, h0, hb, if_false] at hmade ⊢
        have hk1 : (rs (i + 1 + k)).err = some e := by
          have : i + 1 + k = i + (k + 1) := by omega
          rw [this]; exact hk
        have hlt1 : ∀ j, j < k → (rs (i + 1 + j)).err = none := by
          intro j hj
          have : i + 1 + j = i + (j + 1) := by omega
          rw [this]; exact hlt (j + 1) (by omega)
        have hmade1 : k + 1 ≤ (fetchTeamsLoop (scripted rs) org fuel (i + 1)
            ⟨(rs i).resp.NextPage, opts.PerPage⟩).calls.length := by
          simpa [scripted] using hmade
        obtain ⟨ihc, ihe, ihp⟩ := ih k (i + 1) ⟨(rs i).resp.NextPage, opts.PerPage⟩
          hk1 hlt1 hmade1
        refine ⟨by rw [List.length_cons, ihc], ihe, ?_⟩
        rw [ihp, List.range_succ_eq_map]
        simp only [List.map_cons, List.map_map, Nat.add_zero]
        congr 1
        apply List.map_congr_left
        intro j _
        simp only [Function.comp]
        congr 2
        omega

/-- C3: for every sequence `rs` of SDK responses in which the `k`-th call to
`Teams.ListTeams` (`k ≥ 1`) is made and is the first to return an error `e`, `fetchTeams`
makes exactly `k` calls, returns exactly `e`, and has pushed exactly the batches of the
calls `1, ..., k - 1`, in order. -/
theorem fetchTeams_no_retry {β : Type} (rs : Nat → Reply β) (org : String) (fuel : Nat)
    (k : Nat) (e : GoError) (hk : 1 ≤ k) (herr : (rs (k - 1)).err = some e)
    (hfirst : ∀ j, j < k - 1 → (rs j).err = none)
    (hmade : k ≤ (fetchTeams (scripted rs) org fuel).calls.length) :
    (fetchTeams (scripted rs) org fuel).calls.length = k ∧
    (fetchTeams (scripted rs) org fuel).ending = Ending.returned (some e) ∧
    (fetchTeams (scripted rs) org fuel).pushed
      = (List.range (k - 1)).map (fun j => (rs j).repos) := by
  obtain ⟨k, rfl⟩ : ∃ n, k = n + 1 := ⟨k - 1, by omega⟩
  simp only [Nat.add_sub_cancel] at herr hfirst ⊢
  have h := fetchTeamsLoop_first_error rs org e fuel k 0 ⟨0, 100⟩
    (by simpa using herr) (by simpa using hfirst) hmade
  simpa [fetchTeams] using h

/-- A run whose second call fails: two calls, the error returned as it is, the first batch
pushed. -/
theorem fetchTeams_no_retry_witness :
    (fetchTeams (scripted (fun i =>
        if i = 0 then (⟨[1], ⟨2, 3⟩, none⟩ : Reply (List Nat))
        else if i = 1 then ⟨[2], ⟨3, 3⟩, some (GoError.errorString "boom")⟩
        else ⟨[3], ⟨0, 0⟩, none⟩)) "org" 9).calls.length = 2 ∧
    (fetchTeams (scripted (fun i =>
        if i = 0 then (⟨[1], ⟨2, 3⟩, none⟩ : Reply (List Nat))
        else if i = 1 then ⟨[2], ⟨3, 3⟩, some (GoError.errorString "boom")⟩
        else ⟨[3], ⟨0, 0⟩, none⟩)) "org" 9).ending
      = Ending.returned (some (GoError.errorString "boom")) ∧
    (fetchTeams (scripted (fun i =>
        if i = 0 then (⟨[1], ⟨2, 3⟩, none⟩ : Reply (List Nat))
        else if i = 1 then ⟨[2], ⟨3, 3⟩, some (GoError.errorString "boom")⟩
        else ⟨[3], ⟨0, 0⟩, none⟩)) "org" 9).pushed = [[1]] :=
  fetchTeams_no_retry _ "org" 9 2 (GoError.errorString "boom") (by decide) rfl
    (by intro j hj; have : j = 0 := by omega
        subst this; rfl) (by decide)

/-- The `k`-th call is made exactly when no earlier response stopped the loop: with `k`
iterations allowed, when the first `k - 1` responses have no error and a `NextPage`
different from their `LastPage` and the `k`-th response has the error `e`, the run makes
`k` calls, returns `e` and has pushed the first `k - 1` batches. -/
theorem fetchTeams_first_error_run {β : Type} (rs : Nat → Reply β) (org : String)
    (fuel k : Nat) (e : GoError) (hk : 1 ≤ k) (hf : k ≤ fuel)
    (herr : (rs (k - 1)).err = some e)
    (hbefore : ∀ j, j < k - 1 →
      (rs j).err = none ∧ (rs j).resp.NextPage ≠ (rs j).resp.LastPage) :
    (fetchTeams (scripted rs) org fuel).calls.length = k ∧
    (fetchTeams (scripted rs) org fuel).ending = Ending.returned (some e) ∧
    (fetchTeams (scripted rs) org fuel).pushed
      = (List.range (k - 1)).map (fun j => (rs j).repos) := by
  obtain ⟨k, rfl⟩ : ∃ n, k = n + 1 := ⟨k - 1, by omega⟩
  obtain ⟨fuel, rfl⟩ : ∃ f, fuel = f + 1 := ⟨fuel - 1, by omega⟩
  simp only [Nat.add_sub_cancel] at herr hbefore ⊢
  have hmade : ∀ j, j ≤ k →
      j < (fetchTeamsLoop (scripted rs) org (fuel + 1) 0 ⟨0, 100⟩).calls.length := by
    intro j
    induction j with
    | zero =>
      intro _
      have hfirst := fetchTeamsLoop_first_call (scripted rs) org fuel 0 ⟨0, 100⟩
      by_contra hc
      have hnil : (fetchTeamsLoop (scripted rs) org (fuel + 1) 0 ⟨0, 100⟩).calls = [] :=
        List.length_eq_zero.mp (by omega)
      rw [hnil] at hfirst
      simp at hfirst
    | succ j ihj =>
      intro hj
      obtain ⟨h1, h2⟩ := hbefore j (by omega)
      exact fetchTeamsLoop_goes_on rs org (fuel + 1) 0 ⟨0, 100⟩ j (ihj (by omega))
        (by simpa using h1) (by simpa using h2) (by omega)
  have h := fetchTeamsLoop_first_error rs org e (fuel + 1) k 0 ⟨0, 100⟩
    (by simpa using herr) (by intro j hj; simpa using (hbefore j hj).1)
    (hmade k (le_refl k))
  simpa [fetchTeams] using h

/-! ## Theorems: `fetchTeamMembers` and `fetchTeams` run the same loop -/

/-- The two loops, entered with the same `ListOptions` against the same sequence of
responses, issue the same requests, push the same batches and end the same way. -/
theorem fetchTeamMembersLoop_eq_fetchTeamsLoop {β : Type} (rs : Nat → Reply β)
    (orgId : Int) (t : Team) (org role : String) (fuel : Nat) :
    ∀ (i : Nat) (opts : ListOptions),
      membersRequests (fetchTeamMembersLoop (scriptedMembers rs) orgId t fuel i ⟨role, opts⟩)
        = teamsRequests (fetchTeamsLoop (scripted rs) org fuel i opts) ∧
      (fetchTeamMembersLoop (scriptedMembers rs) orgId t fuel i ⟨role, opts⟩).pushed
        = (fetchTeamsLoop (scripted rs) org fuel i opts).pushed ∧
      (fetchTeamMembersLoop (scriptedMembers rs) orgId t fuel i ⟨role, opts⟩).ending
        = (fetchTeamsLoop (scripted rs) org fuel i opts).ending := by
  induction fuel with
  | zero => intro i opts; exact ⟨rfl, rfl, rfl⟩
  | succ fuel ih =>
    intro i opts
    simp only [fetchTeamMembersLoop, fetchTeamsLoop, scriptedMembers, scripted]
    cases herr : (rs i).err with
    | some e => exact ⟨rfl, rfl, rfl⟩
    | none =>
      by_cases hb : (rs i).resp.NextPage = (rs i).resp.LastPage
      · simp [hb, membersRequests, teamsRequests]
      · simp only [hb, if_false]
        obtain ⟨h1, h2, h3⟩ := ih (i + 1) ⟨(rs i).resp.NextPage, opts.PerPage⟩
        refine ⟨?_, ?_, h3⟩
        · simp only [membersRequests, teamsRequests, List.map_cons] at h1 ⊢
          rw [h1]
        · rw [h2]

/-- C5: for every sequence `rs` of SDK responses, when the organization id parses from the
team's `MembersURL` (its fifth piece exists and `Atoi` accepts it), `fetchTeamMembers`
issues the same sequence of `(Page, PerPage)` requests, pushes the same sequence of
batches and ends with the same error-or-nil result as `fetchTeams` on `rs`. -/
theorem fetchTeamMembers_same_loop_as_fetchTeams {β : Type} (rs : Nat → Reply β)
    (t : Team) (org : String) (fuel : Nat) (seg : List Char) (orgId : Int)
    (hseg : (stringsSplit '/' t.MembersURL)[4]? = some seg)
    (hparse : Atoi seg = Except.ok orgId) :
    membersRequests (fetchTeamMembers (scriptedMembers rs) t fuel)
      = teamsRequests (fetchTeams (scripted rs) org fuel) ∧
    (fetchTeamMembers (scriptedMembers rs) t fuel).pushed
      = (fetchTeams (scripted rs) org fuel).pushed ∧
    (fetchTeamMembers (scriptedMembers rs) t fuel).ending
      = (fetchTeams (scripted rs) org fuel).ending := by
  simp only [fetchTeamMembers, fetchTeams, hseg, hparse]
  exact fetchTeamMembersLoop_eq_fetchTeamsLoop rs orgId t org "" fuel 0 ⟨0, 100⟩

/-- The team 7 of organization 12 against a two-response sequence: both resolvers request the
same pages, push the same batches and end the same way. -/
theorem fetchTeamMembers_same_loop_as_fetchTeams_witness :
    membersRequests (fetchTeamMembers
        (scriptedMembers (fun i => if i = 0 then (⟨[1], ⟨2, 3⟩, none⟩ : Reply (List Nat))
          else ⟨[2], ⟨3, 3⟩, none⟩)) (Team.mk 7 (membersURL 12 7) none) 5)
      = teamsRequests (fetchTeams
        (scripted (fun i => if i = 0 then (⟨[1], ⟨2, 3⟩, none⟩ : Reply (List Nat))
          else ⟨[2], ⟨3, 3⟩, none⟩)) "org" 5) ∧
    (fetchTeamMembers
        (scriptedMembers (fun i => if i = 0 then (⟨[1], ⟨2, 3⟩, none⟩ : Reply (List Nat))
          else ⟨[2], ⟨3, 3⟩, none⟩)) (Team.mk 7 (membersURL 12 7) none) 5).pushed
      = (fetchTeams
        (scripted (fun i => if i = 0 then (⟨[1], ⟨2, 3⟩, none⟩ : Reply (List Nat))
          else ⟨[2], ⟨3, 3⟩, none⟩)) "org" 5).pushed ∧
    (fetchTeamMembers
        (scriptedMembers (fun i => if i = 0 then (⟨[1], ⟨2, 3⟩, none⟩ : Reply (List Nat))
          else ⟨[2], ⟨3, 3⟩, none⟩)) (Team.mk 7 (membersURL 12 7) none) 5).ending
      = (fetchTeams
        (scripted (fun i => if i = 0 then (⟨[1], ⟨2, 3⟩, none⟩ : Reply (List Nat))
          else ⟨[2], ⟨3, 3⟩, none⟩)) "org" 5).ending :=
  fetchTeamMembers_same_loop_as_fetchTeams _ (Team.mk 7 (membersURL 12 7) none) "org" 5
    "12".toList 12 (by decide) rfl

/-! ## Theorems: `resolveTeamsParent` -/

/-- C7: for a team whose `Parent` is non-nil, `resolveTeamsParent` is one call of `Set` with
the column name `c.Name` and the value `Parent.ID`, and it returns the result of that call;
for a team whose `Parent` is nil it returns `nil` and leaves the resource unchanged.  In both
cases, given that `Set` writes only the column it is given, no column other than `c.Name`
is written. -/
theorem resolveTeamsParent_spec
    (Set : Resource → String → Value → Resource × Option GoError)
    (resource : Resource) (c : Column) :
    (∀ parent, resource.Item.Parent = some parent →
      resolveTeamsParent Set resource c
        = Set resource c.Name (Value.bigint parent.ID)) ∧
    (resource.Item.Parent = none → resolveTeamsParent Set resource c = (resource, none)) ∧
    (WritesOnlyKey Set → ∀ k, k ≠ c.Name →
      (resolveTeamsParent Set resource c).1.data k = resource.data k) := by
  refine ⟨?_, ?_, ?_⟩
  · intro parent h
    simp [resolveTeamsParent, h]
  · intro h
    simp [resolveTeamsParent, h]
  · intro hset k hk
    cases h : resource.Item.Parent with
    | none => simp [resolveTeamsParent, h]
    | some parent =>
      simp only [resolveTeamsParent, h]
      exact hset resource c.Name _ k hk

/-- The storing `Set` writes only the column it is given. -/
theorem storeSet_writesOnlyKey : WritesOnlyKey storeSet := by
  intro r key v k hk
  simp [storeSet, hk]

/-- The resolver on a team with parent 42, for the column `parent` of `github_teams`: the
column holds 42 afterwards, the column `id` is untouched and the call returns `nil`. -/
theorem resolveTeamsParent_example :
    (resolveTeamsParent storeSet ⟨Team.mk 7 [] (some (Team.mk 42 [] none)), fun _ => none⟩
      ⟨"parent", "", ValueType.TypeBigInt, ColumnResolver.resolveTeamsParent⟩).1.data "parent"
      = some (Value.bigint 42) ∧
    (resolveTeamsParent storeSet ⟨Team.mk 7 [] (some (Team.mk 42 [] none)), fun _ => none⟩
      ⟨"parent", "", ValueType.TypeBigInt, ColumnResolver.resolveTeamsParent⟩).1.data "id"
      = none ∧
    (resolveTeamsParent storeSet ⟨Team.mk 7 [] (some (Team.mk 42 [] none)), fun _ => none⟩
      ⟨"parent", "", ValueType.TypeBigInt, ColumnResolver.resolveTeamsParent⟩).2 = none ∧
    (resolveTeamsParent storeSet ⟨Team.mk 7 [] none, fun _ => none⟩
      ⟨"parent", "", ValueType.TypeBigInt, ColumnResolver.resolveTeamsParent⟩).1.data "parent"
      = none := by
  decide

/-! ## Theorems: `IgnoreError` -/

/-- C8: `IgnoreError err` is true exactly when `errors.As` finds an `ErrorResponse` on the
chain of `err` whose status code is 404 or whose message is exactly the enterprise-only
text.  It is false for a nil error, for an error that wraps no `ErrorResponse`, and for an
`ErrorResponse` with another status code and another message, also one that differs from
the text only in case, in white space or in the final full stop. -/
theorem IgnoreError_iff (err : Option GoError) :
    (IgnoreError err = true ↔
      ∃ e er, err = some e ∧ errorsAs e = some er ∧
        (er.Response.StatusCode = 404 ∨
          er.Message = "This organization is not part of externally managed enterprise.")) ∧
    IgnoreError none = false ∧
    (∀ e, errorsAs e = none → IgnoreError (some e) = false) ∧
    (∀ e er, errorsAs e = some er → er.Response.StatusCode ≠ 404 →
      er.Message ≠ "This organization is not part of externally managed enterprise." →
      IgnoreError (some e) = false) ∧
    IgnoreError (some (GoError.errorResponse ⟨⟨403⟩,
      "this organization is not part of externally managed enterprise."⟩)) = false ∧
    IgnoreError (some (GoError.errorResponse ⟨⟨403⟩,
      "This organization is not part of externally managed enterprise. "⟩)) = false ∧
    IgnoreError (some (GoError.errorResponse ⟨⟨403⟩,
      "This organization is not part of externally managed enterprise"⟩)) = false := by
  refine ⟨?_, rfl, ?_, ?_, by decide, by decide, by decide⟩
  · cases err with
    | none => simp [IgnoreError]
    | some e =>
      cases h : errorsAs e with
      | none => simp [IgnoreError, h]
      | some er =>
        simp only [IgnoreError, Option.bind, h, StatusNotFound, EnterpriseOnly]
        constructor
        · intro hi
          refine ⟨e, er, rfl, h, ?_⟩
          by_cases h1 : er.Response.StatusCode = 404
          · exact Or.inl h1
          · by_cases h2 : er.Message
                = "This organization is not part of externally managed enterprise."
            · exact Or.inr h2
            · simp [h1, h2] at hi
        · rintro ⟨e1, er1, he, her, hor⟩
          cases he
          rw [h] at her
          cases her
          rcases hor with h1 | h2
          · simp [h1]
          · simp [h2]
  · intro e h
    simp [IgnoreError, h]
  · intro e er h h1 h2
    simp [IgnoreError, h, StatusNotFound, EnterpriseOnly, h1, h2]

/-- An `ErrorResponse` is found through wrapping, and only the first one counts. -/
theorem IgnoreError_examples :
    IgnoreError (some (GoError.wrapError "list teams"
      (GoError.errorResponse ⟨⟨404⟩, "Not Found"⟩))) = true ∧
    IgnoreError (some (GoError.errorResponse ⟨⟨403⟩,
      "This organization is not part of externally managed enterprise."⟩)) = true ∧
    IgnoreError (some (GoError.errorResponse ⟨⟨500⟩, "Server Error"⟩)) = false ∧
    IgnoreError (some (GoError.errorString "404")) = false := by
  decide

/-! ## Theorems: the schema of `Teams()` and the resource map of `Provider()` -/

/-- C10: within `github_teams` and within its relation `github_team_members` no two columns
have the same name, and every declared primary key (`id`; `team_id` and `id`) is the name
of a column of the same table. -/
theorem Teams_schema_well_formed :
    Teams.Name = "github_teams" ∧
    Teams.columnNames.Nodup ∧
    Teams.PrimaryKeys = ["id"] ∧
    (∀ k ∈ Teams.PrimaryKeys, k ∈ Teams.columnNames) ∧
    Teams.Relations.map Table.Name = ["github_team_members"] ∧
    (∀ rel ∈ Teams.Relations,
      rel.columnNames.Nodup ∧
      rel.PrimaryKeys = ["team_id", "id"] ∧
      ∀ k ∈ rel.PrimaryKeys, k ∈ rel.columnNames) := by
  decide

/-- C4: the resource map of `provider.Provider()` has exactly the keys `organizations`,
`repositories`, `teams` and `external_groups`; the first three are the tables of those
names and `github_team_members` is a relation of the `teams` table, but no entry of the
map is a billing table. -/
theorem Provider_registers_no_billing_table :
    Provider.ResourceMap.map Prod.fst
      = ["organizations", "repositories", "teams", "external_groups"] ∧
    Provider.resource "organizations" = some TableFn.Organizations ∧
    Provider.resource "repositories" = some TableFn.Repositories ∧
    Provider.resource "teams" = some TableFn.Teams ∧
    "github_team_members" ∈ Teams.Relations.map Table.Name ∧
    (∀ e ∈ Provider.ResourceMap, e.2.isBilling = false) ∧
    (∀ key, Provider.resource key ≠ some TableFn.ActionBillings ∧
      Provider.resource key ≠ some TableFn.StorageBillings) := by
  refine ⟨by decide, by decide, by decide, by decide, by decide, by decide, ?_⟩
  intro key
  have hall : ∀ e ∈ Provider.ResourceMap, e.2.isBilling = false := by decide
  constructor <;>
  · intro h
    simp only [ProviderDecl.resource, Option.map_eq_some'] at h
    obtain ⟨e, he, h2⟩ := h
    have hm := List.mem_of_find?_eq_some he
    have := hall e hm
    rw [h2] at this
    exact absurd this (by decide)

/-! ## Theorems: the organization id of `fetchTeamMembers` -/

/-- Splitting after a first piece that does not contain the separator. -/
theorem stringsSplit_append_sep (sep : Char) (rest : List Char) :
    ∀ xs : List Char, sep ∉ xs →
      stringsSplit sep (xs ++ sep :: rest) = xs :: stringsSplit sep rest := by
  intro xs
  induction xs with
  | nil => intro _; simp [stringsSplit]
  | cons c cs ih =>
    intro h
    have hc : c ≠ sep := fun hcs => h (by simp [hcs])
    have hcs : sep ∉ cs := fun hm => h (List.mem_cons_of_mem _ hm)
    simp [stringsSplit, hc, ih hcs]

/-- The character of a digit `d < 10` is a decimal digit of value `d`. -/
theorem digitChar_isDigit (d : Nat) (h : d < 10) :
    (Nat.digitChar d).isDigit = true ∧ (Nat.digitChar d).toNat - 48 = d := by
  interval_cases d <;> decide

/-- The value of a digit string with one more digit at the end. -/
theorem digitsValue_append (l : List Char) (c : Char) :
    ∀ n, digitsValue (l ++ [c]) n = digitsValue l n * 10 + (c.toNat - 48) := by
  induction l with
  | nil => intro n; rfl
  | cons a l ih => intro n; simp [digitsValue, ih]

/-- Reading more digits never lowers the value. -/
theorem le_digitsValue (l : List Char) : ∀ n, n ≤ digitsValue l n := by
  induction l with
  | nil => intro n; exact le_refl n
  | cons a l ih =>
    intro n
    have := ih (n * 10 + (a.toNat - 48))
    simp only [digitsValue]
    omega

/-- The digits `Nat.toDigitsCore 10` puts in front of `ds`: at least one, all decimal
digits, and standing for `n`. -/
theorem toDigitsCore_spec (fuel : Nat) : ∀ (n : Nat) (ds : List Char), n < fuel →
    ∃ l, Nat.toDigitsCore 10 fuel n ds = l ++ ds ∧ l ≠ [] ∧
      (∀ c ∈ l, c.isDigit = true) ∧ digitsValue l 0 = n := by
  induction fuel with
  | zero => intro n ds h; omega
  | succ fuel ih =>
    intro n ds h
    obtain ⟨hd1, hd2⟩ := digitChar_isDigit (n % 10) (Nat.mod_lt n (by decide))
    by_cases h0 : n / 10 = 0
    · refine ⟨[Nat.digitChar (n % 10)], ?_, by simp, ?_, ?_⟩
      · simp [Nat.toDigitsCore, h0]
      · intro c hc
        simp at hc
        rw [hc]; exact hd1
      · simp only [digitsValue]
        omega
    · obtain ⟨l, hl, hne, hdig, hval⟩ :=
        ih (n / 10) (Nat.digitChar (n % 10) :: ds) (by omega)
      refine ⟨l ++ [Nat.digitChar (n % 10)], ?_, by simp, ?_, ?_⟩
      · simp [Nat.toDigitsCore, h0, hl]
      · intro c hc
        rcases List.mem_append.mp hc with hc | hc
        · exact hdig c hc
        · simp at hc
          rw [hc]; exact hd1
      · rw [digitsValue_append, hval, hd2]
        omega

/-- The decimal numeral of `n` is a non-empty string of decimal digits that stands for `n`. -/
theorem toDigits_spec (n : Nat) :
    Nat.toDigits 10 n ≠ [] ∧ (∀ c ∈ Nat.toDigits 10 n, c.isDigit = true) ∧
      digitsValue (Nat.toDigits 10 n) 0 = n := by
  obtain ⟨l, hl, hne, hdig, hval⟩ := toDigitsCore_spec (n + 1) n [] (by omega)
  have : Nat.toDigits 10 n = l := by simpa [Nat.toDigits] using hl
  rw [this]
  exact ⟨hne, hdig, hval⟩

/-- On a string of decimal digits `parseUintLoop` returns its value, or a range error when
the value is above `2^64 - 1`. -/
theorem parseUintLoop_digits (l : List Char) : ∀ n, n ≤ 2 ^ 64 - 1 →
    (∀ c ∈ l, c.isDigit = true) →
    parseUintLoop l n
      = if digitsValue l n ≤ 2 ^ 64 - 1 then Except.ok (digitsValue l n)
        else Except.error ConvErr.ErrRange := by
  induction l with
  | nil =>
    intro n hn _
    simp only [parseUintLoop, digitsValue]
    rw [if_pos hn]
  | cons a l ih =>
    intro n hn hdig
    have ha : a.isDigit = true := hdig a (by simp)
    have hl : ∀ c ∈ l, c.isDigit = true := fun c hc => hdig c (List.mem_cons_of_mem _ hc)
    have hmono := le_digitsValue l (n * 10 + (a.toNat - 48))
    simp only [parseUintLoop, digitsValue, ha, if_true]
    by_cases h1 : n ≥ (2 ^ 64 - 1) / 10 + 1
    · rw [if_pos h1, if_neg]
      norm_num at h1 ⊢
      omega
    · rw [if_neg h1]
      by_cases h2 : n * 10 + (a.toNat - 48) > 2 ^ 64 - 1
      · rw [if_pos h2, if_neg]
        omega
      · rw [if_neg h2]
        exact ih _ (by omega) hl

/-- On the decimal numeral of `n`, `Atoi` returns `n` when `n` fits a 64-bit `int` and a
range error otherwise. -/
theorem Atoi_toDigits (n : Nat) :
    Atoi (Nat.toDigits 10 n)
      = if n < 2 ^ 63 then Except.ok (n : Int)
        else Except.error ⟨"Atoi", Nat.toDigits 10 n, ConvErr.ErrRange⟩ := by
  obtain ⟨hne, hdig, hval⟩ := toDigits_spec n
  have hloop := parseUintLoop_digits (Nat.toDigits 10 n) 0 (by norm_num) hdig
  rw [hval] at hloop
  cases hs : Nat.toDigits 10 n with
  | nil => exact absurd hs hne
  | cons c cs =>
    rw [hs] at hloop
    have hc : c.isDigit = true := hdig c (by rw [hs]; simp)
    have hplus : c ≠ '+' := by
      intro h; rw [h] at hc; exact absurd hc (by decide)
    have hminus : c ≠ '-' := by
      intro h; rw [h] at hc; exact absurd hc (by decide)
    have hbody : ParseUint (c :: cs) = parseUintLoop (c :: cs) 0 := rfl
    have hint : ParseInt (c :: cs)
        = if n < 2 ^ 63 then Except.ok (n : Int) else Except.error ConvErr.ErrRange := by
      simp only [ParseInt, hplus, hminus, or_self, if_false, hbody, hloop, decide_False]
      by_cases h64 : n ≤ 2 ^ 64 - 1
      · rw [if_pos h64]
        by_cases h63 : n < 2 ^ 63
        · rw [if_pos h63]
          have h1 : ¬ (True ∧ n ≥ 2 ^ 63) := by
            intro h; have := h.2; omega
          have h2 : ¬ (false = true ∧ n > 2 ^ 63) := by
            intro h; exact absurd h.1 (by decide)
          show (if True ∧ n ≥ 2 ^ 63 then Except.error ConvErr.ErrRange
            else if false = true ∧ n > 2 ^ 63 then Except.error ConvErr.ErrRange
            else Except.ok (if false = true then -(n : Int) else (n : Int))) = _
          rw [if_neg h1, if_neg h2]
          rfl
        · rw [if_neg h63]
          have h1 : (True ∧ n ≥ 2 ^ 63) := ⟨trivial, by omega⟩
          show (if True ∧ n ≥ 2 ^ 63 then Except.error ConvErr.ErrRange
            else if false = true ∧ n > 2 ^ 63 then Except.error ConvErr.ErrRange
            else Except.ok (if false = true then -(n : Int) else (n : Int))) = _
          rw [if_pos h1]
      · rw [if_neg h64, if_neg (by omega)]
    simp only [Atoi, hint]
    by_cases h63 : n < 2 ^ 63
    · simp only [if_pos h63]
    · simp only [if_neg h63]

/-- The fifth piece of the members URL of organization `n` is the numeral of `n`. -/
theorem stringsSplit_membersURL (n m : Nat) :
    (stringsSplit '/' (membersURL n m))[4]? = some (Nat.toDigits 10 n) := by
  have hn : '/' ∉ Nat.toDigits 10 n := by
    intro h
    have := (toDigits_spec n).2.1 _ h
    exact absurd this (by decide)
  have hurl : membersURL n m
      = "https:".toList ++ '/' :: ([] ++ '/' :: ("api.github.com".toList ++ '/' ::
          ("organizations".toList ++ '/' :: (Nat.toDigits 10 n ++ '/' ::
            ("team/".toList ++ (Nat.toDigits 10 m
              ++ "/members\x7b/member\x7d".toList)))))) := rfl
  rw [hurl, stringsSplit_append_sep _ _ _ (by decide),
    stringsSplit_append_sep _ _ _ (by decide), stringsSplit_append_sep _ _ _ (by decide),
    stringsSplit_append_sep _ _ _ (by decide), stringsSplit_append_sep _ _ _ hn]
  rfl

/-- On a string with a byte that is no decimal digit `parseUintLoop` returns an error. -/
theorem parseUintLoop_not_digits (l : List Char) : ∀ n, l.all Char.isDigit = false →
    ∃ e, parseUintLoop l n = Except.error e := by
  induction l with
  | nil => intro n h; simp at h
  | cons a l ih =>
    intro n h
    simp only [parseUintLoop]
    by_cases ha : a.isDigit = true
    · have hl : l.all Char.isDigit = false := by simpa [ha] using h
      rw [if_pos ha]
      split
      · exact ⟨_, rfl⟩
      · split
        · exact ⟨_, rfl⟩
        · exact ih _ hl
    · rw [if_neg ha]
      exact ⟨_, rfl⟩

/-- A string that is no decimal integer is refused by `Atoi`. -/
theorem Atoi_not_decimal (s : List Char) (h : isDecimalInteger s = false) :
    ∃ e, Atoi s = Except.error ⟨"Atoi", s, e⟩ := by
  have hp : ∃ e, ParseInt s = Except.error e := by
    cases s with
    | nil => exact ⟨_, rfl⟩
    | cons c cs =>
      simp only [isDecimalInteger] at h
      simp only [ParseInt]
      by_cases hsign : c = '+' ∨ c = '-'
      · rw [if_pos hsign] at h ⊢
        cases cs with
        | nil => exact ⟨_, rfl⟩
        | cons d ds =>
          have hd : (d :: ds).all Char.isDigit = false := by simpa using h
          obtain ⟨e, he⟩ := parseUintLoop_not_digits (d :: ds) 0 hd
          exact ⟨e, by simp only [ParseUint, he]⟩
      · rw [if_neg hsign] at h ⊢
        obtain ⟨e, he⟩ := parseUintLoop_not_digits (c :: cs) 0 h
        exact ⟨e, by simp only [ParseUint, he]⟩
  obtain ⟨e, he⟩ := hp
  exact ⟨e, by simp only [Atoi, he]⟩

/-- The calls of the loop all carry the organization id and the team id it was entered
with. -/
theorem fetchTeamMembersLoop_calls {β : Type}
    (sdk : Nat → Int → Int → TeamListTeamMembersOptions → Reply β) (orgId : Int) (t : Team)
    (fuel : Nat) : ∀ (i : Nat) (opts : TeamListTeamMembersOptions),
      ∀ c ∈ (fetchTeamMembersLoop sdk orgId t fuel i opts).calls,
        c.orgID = orgId ∧ c.teamID = t.ID := by
  induction fuel with
  | zero => intro i opts c hc; simp [fetchTeamMembersLoop] at hc
  | succ fuel ih =>
    intro i opts c hc
    simp only [fetchTeamMembersLoop] at hc
    split at hc
    · simp at hc; subst hc; exact ⟨rfl, rfl⟩
    · split at hc
      · simp at hc; subst hc; exact ⟨rfl, rfl⟩
      · simp only [List.mem_cons] at hc
        rcases hc with hc | hc
        · subst hc; exact ⟨rfl, rfl⟩
        · exact ih _ _ c hc

/-- The loop, entered with fuel left, makes a call. -/
theorem fetchTeamMembersLoop_calls_ne_nil {β : Type}
    (sdk : Nat → Int → Int → TeamListTeamMembersOptions → Reply β) (orgId : Int) (t : Team)
    (fuel i : Nat) (opts : TeamListTeamMembersOptions) :
    (fetchTeamMembersLoop sdk orgId t (fuel + 1) i opts).calls ≠ [] := by
  simp only [fetchTeamMembersLoop]
  split
  · simp
  · split <;> simp

/-- C9: for all non-negative integers `n` and `m` and every team with ID `m` and the members
URL of organization `n` and team `m`, every call `fetchTeamMembers` makes is
`Teams.ListTeamMembersByID` with organization id `n` and team id `m` (and it makes one as
soon as `n` fits an `int`); and for every `MembersURL` with at least five pieces whose
fifth piece is not a decimal integer, it returns an error without calling the SDK and
without pushing anything. -/
theorem fetchTeamMembers_org_id {β : Type}
    (sdk : Nat → Int → Int → TeamListTeamMembersOptions → Reply β) (fuel : Nat) :
    (∀ (n m : Nat) (parent : Option Team),
      (∀ c ∈ (fetchTeamMembers sdk (Team.mk m (membersURL n m) parent) fuel).calls,
        c.orgID = n ∧ c.teamID = m) ∧
      (n < 2 ^ 63 →
        (fetchTeamMembers sdk (Team.mk m (membersURL n m) parent) (fuel + 1)).calls ≠ [])) ∧
    (∀ (t : Team) (seg : List Char), (stringsSplit '/' t.MembersURL)[4]? = some seg →
      isDecimalInteger seg = false →
      ∃ e, fetchTeamMembers sdk t fuel = ⟨[], [], Ending.returned (some e)⟩) := by
  refine ⟨?_, ?_⟩
  · intro n m parent
    have hseg := stringsSplit_membersURL n m
    have hat := Atoi_toDigits n
    constructor
    · intro c hc
      simp only [fetchTeamMembers, Team.MembersURL, hseg, hat] at hc
      by_cases h63 : n < 2 ^ 63
      · rw [if_pos h63] at hc
        exact fetchTeamMembersLoop_calls sdk n _ fuel 0 _ c hc
      · rw [if_neg h63] at hc
        simp at hc
    · intro h63
      simp only [fetchTeamMembers, Team.MembersURL, hseg, hat]
      rw [if_pos h63]
      exact fetchTeamMembersLoop_calls_ne_nil sdk n _ fuel 0 _
  · intro t seg hseg hdec
    obtain ⟨e, he⟩ := Atoi_not_decimal seg hdec
    exact ⟨GoError.numError ⟨"Atoi", seg, e⟩, by simp only [fetchTeamMembers, hseg, he]⟩

/-- The resolver on the team 7 of organization 12, against an SDK that serves one page; on
a URL whose fifth piece is a name; on one whose fifth piece carries a sign, which `Atoi`
accepts; on one whose fifth piece is a numeral too large for an `int`; and on a URL with
fewer than five pieces. -/
theorem fetchTeamMembers_examples :
    fetchTeamMembers (scriptedMembers (fun _ => (⟨[1], ⟨0, 0⟩, none⟩ : Reply (List Nat))))
        (Team.mk 7 (membersURL 12 7) none) 3
      = ⟨[⟨12, 7, ⟨"", ⟨0, 100⟩⟩⟩], [[1]], Ending.returned none⟩ ∧
    fetchTeamMembers (scriptedMembers (fun _ => (⟨[1], ⟨0, 0⟩, none⟩ : Reply (List Nat))))
        (Team.mk 7 "https://api.github.com/orgs/acme/team/7/members".toList none) 3
      = ⟨[], [], Ending.returned (some (GoError.numError
          ⟨"Atoi", "acme".toList, ConvErr.ErrSyntax⟩))⟩ ∧
    fetchTeamMembers (scriptedMembers (fun _ => (⟨[1], ⟨0, 0⟩, none⟩ : Reply (List Nat))))
        (Team.mk 7 "https://api.github.com/organizations/+12/team/7/members".toList none) 3
      = ⟨[⟨12, 7, ⟨"", ⟨0, 100⟩⟩⟩], [[1]], Ending.returned none⟩ ∧
    fetchTeamMembers (scriptedMembers (fun _ => (⟨[1], ⟨0, 0⟩, none⟩ : Reply (List Nat))))
        (Team.mk 7 "https://api.github.com/organizations/9223372036854775808/team/7".toList
          none) 3
      = ⟨[], [], Ending.returned (some (GoError.numError
          ⟨"Atoi", "9223372036854775808".toList, ConvErr.ErrRange⟩))⟩ ∧
    fetchTeamMembers (scriptedMembers (fun _ => (⟨[1], ⟨0, 0⟩, none⟩ : Reply (List Nat))))
        (Team.mk 7 "https://api.github.com/teams".toList none) 3
      = ⟨[], [], Ending.panicked⟩ := by
  decide

end GithubProvider
